import Mathlib

/-!
Verification of the design-baselines offline model-based optimization
repository.  The development embeds, in Lean, the numerical bookkeeping and
control flow of the conservative-training / gradient-search code:

* normalization statistics and their clamping
  (`design_baselines/online/__init__.py`, `design_baselines/csm/__init__.py`);
* the Lagrange dual-ascent update on `log_alpha`
  (`forward_model/trainers.py`, `Conservative.train_step`);
* the design-search loops and their best-score tracking
  (`design_baselines/conservative_ensemble/__init__.py`,
   `design_baselines/csm/__init__.py`);
* the learning-rate dimension scaling and discrete-logit initialization;
* the REINFORCE loss (`design_baselines/reinforce/__init__.py`);
* the `gfp` experiment entry point
  (`design_baselines/coms_cleaned/experiments.py`).

Real-valued tensors are embedded as rationals (`ℚ`) or lists of rationals, so
that all definitions compute and concrete instances can be settled by
`decide`/`rfl`.  Square roots, `exp`, and `log` are irrational; where a claim
depends only on the sign, monotonicity, or zero-set of such a function the
development either works with the squared quantity (exact in `ℚ`) or carries
the function as an explicit parameter together with the property of the real
function that the claim uses (positivity, monotonicity).  Each such modelling
choice is documented at the definition it concerns.
-/

namespace DesignBaselines

/-! ## Batch statistics

`np.mean` and the summations underlying `np.std` over a feature column,
embedded on lists of rationals.  Division by zero in `ℚ` is total (`x / 0 = 0`),
matching the convention that statistics of an empty column are never used.  -/

/-- Sum of a list of rationals (the summation inside `np.mean`). -/
def sumQ : List ℚ → ℚ
  | [] => 0
  | x :: xs => x + sumQ xs

/-- `np.mean` over one feature column. -/
def meanQ (l : List ℚ) : ℚ := sumQ l / (l.length : ℚ)

/-- Population variance (`ddof = 0`, numpy's default): the mean of squared
deviations from the mean.  `np.std` is the (floating-point) square root of
this quantity; the variance itself is exact in `ℚ`. -/
def varQ (l : List ℚ) : ℚ := meanQ (l.map (fun x => (x - meanQ l) ^ 2))

/-! ## Normalization statistics and the std clamp (claims C5, C6)

From `design_baselines/online/__init__.py` lines 33-55 (and the identical
block in `design_baselines/csm/__init__.py` lines 40-72):

    st_y = np.std(y, axis=0, keepdims=True)
    st_y = np.where(np.equal(st_y, 0), 1, st_y)
    y = y / st_y

`np.std` returns a nonnegative float; only its value reaches the clamp, so the
clamp is embedded as a function of the computed per-feature standard
deviation. -/

/-- The clamp `np.where(np.equal(st, 0), 1, st)` applied to one feature's
computed standard deviation. -/
def clampStd (s : ℚ) : ℚ := if s = 0 then 1 else s

/-- Per-feature clamping of a vector of computed standard deviations,
`np.where(np.equal(st, 0), 1, st)` acting elementwise. -/
def clampStdVec (st : List ℚ) : List ℚ := st.map clampStd

/-- Forward normalization of one feature value: `x = (x - mu) / st`
(`online/__init__.py` lines 47-51, applied with the clamped `st`). -/
def applyNorm (mu st x : ℚ) : ℚ := (x - mu) / st

/-- Inverse normalization of one feature value: `x * st + mu`
(`online/__init__.py` line 145, `evaluate_solution`: `solution * st_x + mu_x`,
and lines 130, 145: `model * st_y + mu_y`). -/
def invertNorm (mu st x : ℚ) : ℚ := x * st + mu

/-- Forward normalization of a batch (one feature column). -/
def applyNormBatch (mu st : ℚ) (X : List ℚ) : List ℚ :=
  X.map (applyNorm mu st)

/-- Inverse normalization of a batch (one feature column). -/
def invertNormBatch (mu st : ℚ) (X : List ℚ) : List ℚ :=
  X.map (invertNorm mu st)

/-! ## Lagrange dual ascent on `log_alpha` (claim C1)

From `forward_model/trainers.py`, `Conservative.train_step` (lines 76-96):

    conservative = model(perturb)[:, 0] - model(X)[:, 0]
    gap = alpha * target_threshold - alpha * conservative
    alpha_loss = tf.reduce_mean(gap)
    grads = tape.gradient(alpha_loss, [log_alpha])
    alpha_optim.apply_gradients(zip(grads, [log_alpha]))

with `alpha = exp(log_alpha)`.  The derivative of
`exp(la) * (t - mean c)` with respect to `la` is `exp(la) * (t - mean c)`.
The optimizer (a `tf.keras` optimizer class passed as a parameter) is an
external library component; it is embedded as the plain gradient step the
spec describes, with a nonnegative learning rate.  The real function
`exp` is irrational, so it is carried as a parameter `expF`; the claim only
uses two properties of the real exponential, carried as hypotheses where
needed: `expF` is everywhere positive, and `expF` is monotone. -/

/-- One dual-ascent update of `log_alpha` given the batch of per-example
conservative gaps `cs`: descend the gradient of
`alpha_loss = mean (alpha * t - alpha * c_i) = expF la * (t - mean cs)`. -/
def laStep (expF : ℚ → ℚ) (lr t : ℚ) (cs : List ℚ) (la : ℚ) : ℚ :=
  la - lr * (expF la * (t - meanQ cs))

/-- The trace of `log_alpha` values over a stream of consecutive train steps,
one batch of conservative gaps per step; the head is the initial value. -/
def laTrace (expF : ℚ → ℚ) (lr t : ℚ) (la : ℚ) : List (List ℚ) → List ℚ
  | [] => [la]
  | cs :: rest => la :: laTrace expF lr t (laStep expF lr t cs la) rest

/-- The trace of `alpha = expF log_alpha` values over a stream of train
steps. -/
def alphaTrace (expF : ℚ → ℚ) (lr t : ℚ) (la : ℚ) (stream : List (List ℚ)) :
    List ℚ :=
  (laTrace expF lr t la stream).map expF

/-! ## Best-design tracking in the search loop (claim C2)

From `design_baselines/conservative_ensemble/__init__.py` lines 64-115 and the
identical pattern in `design_baselines/csm/__init__.py` lines 108-193:

    score = task.score(solution)            # step-0 evaluation, logged only
    logger.record("score", ..., 0)
    best_design = None
    best_score = None
    for i in range(1, config['solver_steps'] + 1):
        ...
        score = task.score(solution)
        ...
        idx = np.argmax(score)
        if best_design is None or score[idx] > best_score:
            best_score = score[idx]
            best_design = solution[idx]
    np.save(..., best_score)

The oracle scores are embedded as one list of rationals per evaluated batch.
`score[np.argmax(score)]` is the maximum entry of the batch. -/

/-- Maximum of two optional scores (`none` = "no design tracked yet"). -/
def omax : Option ℚ → Option ℚ → Option ℚ
  | none, o => o
  | some a, none => some a
  | some a, some b => some (max a b)

/-- Maximum entry of a batch of oracle scores (`none` for an empty batch);
this is the value `score[np.argmax(score)]` read inside the loop. -/
def listMax : List ℚ → Option ℚ
  | [] => none
  | x :: xs => omax (some x) (listMax xs)

/-- The body of `if best_design is None or score[idx] > best_score`: replace
the tracked best when there is none yet or the current batch maximum strictly
exceeds it. -/
def bestUpdate (best : Option ℚ) (s : List ℚ) : Option ℚ :=
  match listMax s with
  | none => best
  | some m =>
    match best with
    | none => some m
    | some b => if b < m then some m else some b

/-- Folding `bestUpdate` over the per-step oracle score batches, in loop
order. -/
def bestTrack (best : Option ℚ) : List (List ℚ) → Option ℚ
  | [] => best
  | s :: rest => bestTrack (bestUpdate best s) rest

/-- The best score persisted to `score.npy` at the end of the search loop.
`scores0` is the batch of oracle scores of the initial top-K designs (the
step-0 evaluation): it is recorded to the logger but the tracker is
initialized to `None` *after* that evaluation, so `scores0` never enters the
fold. -/
def searchBestScore (scores0 : List ℚ) (stepScores : List (List ℚ)) :
    Option ℚ :=
  bestTrack none stepScores

/-- The best score as the spec's words describe it: the running maximum of
all oracle scores observed so far, *including* the initial (step-0)
evaluation.  Stated only to be compared against `searchBestScore`, which is
the translation of the source. -/
def specBestScore (scores0 : List ℚ) (stepScores : List (List ℚ)) :
    Option ℚ :=
  listMax (scores0 ++ stepScores.flatten)

/-! ## Learning-rate dimension scaling (claim C3)

From `design_baselines/csm/__init__.py` lines 74-76:

    config['perturbation_lr'] *= np.sqrt(np.prod(x.shape[1:]))
    config['solver_lr'] *= np.sqrt(np.prod(x.shape[1:]))

and `design_baselines/online/__init__.py` lines 57-61:

    input_shape = list(task.input_shape)
    if config['is_discrete']:
        input_shape[-1] = input_shape[-1] - 1
    solver_lr = config['solver_lr'] * np.sqrt(np.prod(input_shape))

`np.sqrt` is irrational; the real square root is strictly monotone on the
nonnegative reals, so two nonnegative effective step sizes
`lr * sqrt(p)` and `lr * sqrt(q)` coincide exactly when their squares
`lr^2 * p` and `lr^2 * q` do.  The effective step size is therefore embedded
by its square, which is exact in `ℚ`. -/

/-- `np.prod` of a shape: the product of the per-example feature
dimensions. -/
def prodDims (dims : List ℕ) : ℕ := dims.prod

/-- `input_shape[-1] = input_shape[-1] - 1`: decrement the final (category)
dimension of the shape. -/
def decLastDim : List ℕ → List ℕ
  | [] => []
  | [c] => [c - 1]
  | d :: rest => d :: decLastDim rest

/-- Square of the effective solver step size in `online`:
`(solver_lr * sqrt(prod(input_shape)))^2`, where the final dimension is
decremented for a discrete design space. -/
def onlineSolverScaleSq (lr : ℚ) (dims : List ℕ) (isDiscrete : Bool) : ℚ :=
  lr ^ 2 * (prodDims (if isDiscrete then decLastDim dims else dims) : ℚ)

/-- Square of the effective solver step size in `csm`:
`(solver_lr * sqrt(np.prod(x.shape[1:])))^2` with the full design shape. -/
def csmSolverScaleSq (lr : ℚ) (dims : List ℕ) : ℚ :=
  lr ^ 2 * (prodDims dims : ℚ)

/-- Square of the effective perturbation learning rate in `csm`
(`config['perturbation_lr'] *= np.sqrt(np.prod(x.shape[1:]))`). -/
def csmPerturbScaleSq (lr : ℚ) (dims : List ℕ) : ℚ :=
  lr ^ 2 * (prodDims dims : ℚ)

/-- Square of the effective step size as the spec's words describe it: the
configured learning rate times the square root of the product of the
per-example feature dimensions of the design space, for every task and both
design-space kinds.  Stated only to be compared against the
source-translated scales above. -/
def specStepScaleSq (lr : ℚ) (dims : List ℕ) : ℚ :=
  lr ^ 2 * (prodDims dims : ℚ)

/-! ## Discrete logit initialization of the search (claim C4)

From `design_baselines/conservative_ensemble/__init__.py` lines 64-71:

    x = tf.gather(task.x, indices, axis=0)
    x = tf.math.log(x) if config['is_discrete'] else x

and from `design_baselines/online/__init__.py` lines 102-109:

    initial_x = tf.gather(x, indices, axis=0)
    if config['is_discrete']:
        p = tf.fill(tf.shape(initial_x),
                    1 / tf.cast(tf.shape(initial_x)[-1], tf.float32))
        initial_x = trainer.discrete_clip * initial_x \
                    + (1.0 - trainer.discrete_clip) * p
        initial_x = tf.math.log(initial_x)
        initial_x = initial_x[:, :, 1:] - initial_x[:, :, :1]

The real logarithm is irrational; the claim is about finiteness only, and
`log p` is a finite real exactly when `0 < p` (it is `-inf` at `p = 0` and
`nan` for `p < 0`).  Taking differences of finite logits (line 109) preserves
finiteness, so finiteness of the whole initialization reduces to positivity
of every argument handed to `tf.math.log`. -/

/-- Whether the real `log` of `p` is finite (neither `-inf` nor `nan`):
exactly when `0 < p`. -/
def logFinite (p : ℚ) : Bool := decide (0 < p)

/-- The smoothing `conservative_ensemble` applies to one simplex coordinate
before `tf.math.log`: none — the coordinate is passed through unchanged. -/
def ceInitLogArg (p : ℚ) : ℚ := p

/-- The smoothing `online` applies to one simplex coordinate of a row with
`numCat` categories before `tf.math.log`:
`discrete_clip * p + (1 - discrete_clip) * (1 / numCat)`. -/
def onlineInitLogArg (clip : ℚ) (numCat : ℕ) (p : ℚ) : ℚ :=
  clip * p + (1 - clip) * (1 / (numCat : ℚ))

/-- Whether every logit of the `conservative_ensemble` INIT conversion of one
simplex row is finite. -/
def ceInitFinite (ps : List ℚ) : Bool :=
  ps.all (fun p => logFinite (ceInitLogArg p))

/-- Whether every logit of the `online` INIT conversion of one simplex row is
finite (the per-row category count is the row length, matching
`tf.shape(initial_x)[-1]`). -/
def onlineInitFinite (clip : ℚ) (ps : List ℚ) : Bool :=
  ps.all (fun p => logFinite (onlineInitLogArg clip ps.length p))

/-! ## Early termination of the online epoch loop (claim C7)

From `design_baselines/online/__init__.py` lines 161-189:

    for e in range(config['epochs']):
        <train over minibatches>        # may flip entries of trainer.done
        <validate over minibatches>
        if tf.reduce_all(trainer.done):
            break

The trainer internals (which entries of the done mask an epoch flips) live in
`design_baselines/online/trainers.py`; only the loop skeleton is in the file
under study, so the effect of one full epoch on the loop state is an
arbitrary function `epoch`, and the state carries the done mask the loop
inspects. -/

/-- The state the online epoch loop threads: the per-trajectory done mask
(`trainer.done`) plus the remaining trainer/solution state. -/
structure OnlineLoopState (σ : Type) where
  done : List Bool
  rest : σ

/-- `tf.reduce_all(trainer.done)`. -/
def allDoneMask (done : List Bool) : Bool := done.all (fun b => b)

/-- Number of epochs the loop body starts, out of a budget of `n`: each
started epoch runs to completion, and the loop breaks at the epoch boundary
as soon as the whole done mask is set. -/
def onlineEpochCount {σ : Type} (epoch : OnlineLoopState σ → OnlineLoopState σ) :
    ℕ → OnlineLoopState σ → ℕ
  | 0, _ => 0
  | n + 1, s =>
    let t := epoch s
    if allDoneMask t.done then 1 else 1 + onlineEpochCount epoch n t

/-! ## Non-interference of the vanilla ensemble with the search (claim C10)

From `design_baselines/conservative_ensemble/__init__.py`,
`conservative_ensemble_predictions`, lines 226-249:

    conservative_grads = tape.gradient(score, solution)   # conservative model
    vanilla_grads = tape.gradient(score, solution)        # vanilla model
    x = x + config['solver_lr'] * conservative_grads
    solution = tf.math.softmax(x) if config['is_discrete'] else x
    gradient_corr = tfp.stats.correlation(
        conservative_grads, vanilla_grads, sample_axis=0, event_axis=None)

Both gradient fields are embedded as functions from the flattened candidate
batch to its gradient; the vanilla gradient is used only to form the logged
correlation statistic and never enters the update of `x`. -/

/-- The outcome of one solver step of `conservative_ensemble_predictions`:
the updated candidate batch, and the vanilla-model gradient that the step
computes solely for the `gradient_corr` log record. -/
structure PredSolverStep where
  xNext : List ℚ
  vanillaGradLog : List ℚ
  deriving DecidableEq

/-- One solver step: `x = x + solver_lr * conservative_grads`, with the
vanilla gradient evaluated (for logging) but not applied. -/
def predictionsSolverStep (lr : ℚ) (cGrad vGrad : List ℚ → List ℚ)
    (x : List ℚ) : PredSolverStep :=
  { xNext := List.zipWith (fun xi gi => xi + lr * gi) x (cGrad x)
    vanillaGradLog := vGrad x }

/-- The candidate batch after `n` solver steps of
`conservative_ensemble_predictions`. -/
def predictionsTrajectory (lr : ℚ) (cGrad vGrad : List ℚ → List ℚ)
    (x : List ℚ) : ℕ → List ℚ
  | 0 => x
  | n + 1 =>
    (predictionsSolverStep lr cGrad vGrad
      (predictionsTrajectory lr cGrad vGrad x n)).xNext

/-! ## The REINFORCE loss (claim C8)

From `design_baselines/reinforce/__init__.py` lines 99-102:

    mean_y = tf.reduce_mean(ty)
    standard_dev_y = tf.math.reduce_std(ty - mean_y)
    loss = -tf.reduce_mean(td.log_prob(tx)
        * tf.stop_gradient((ty - mean_y) / standard_dev_y))

`tf.math.reduce_std a = sqrt(mean((a - mean a)^2))`; the square root is
irrational and is carried as an explicit function parameter `sqrtF` applied
to the exact rational variance, the same parameter on both sides of the
comparison.  `tf.stop_gradient` makes the standardized score an opaque
constant for differentiation; in the embedding the loss is accordingly a
function of the log-probability vector with the standardized scores as fixed
coefficients, which makes it additive in that vector. -/

/-- The REINFORCE loss exactly as the source computes it: the batch is scored
to `ys`, the standard deviation is `reduce_std` of the *centered* scores, and
the loss is the negative mean of `log_prob * standardized_score`. -/
def reinforceLossCode (sqrtF : ℚ → ℚ) (logp ys : List ℚ) : ℚ :=
  -(meanQ (List.zipWith
    (fun l y => l * ((y - meanQ ys) /
      sqrtF (varQ (ys.map (fun z => z - meanQ ys))))) logp ys))

/-- The REINFORCE loss as the spec's words describe it: the negative mean of
`log_prob(x)` times the standardized score, `(score - batch mean) / batch
standard deviation`.  Stated only to be compared against
`reinforceLossCode`. -/
def reinforceLossSpec (sqrtF : ℚ → ℚ) (logp ys : List ℚ) : ℚ :=
  -(meanQ (List.zipWith
    (fun l y => l * ((y - meanQ ys) / sqrtF (varQ ys))) logp ys))

/-! ## The gfp experiment entry point (claim C9)

From `design_baselines/coms_cleaned/experiments.py`, the `gfp` click command
(lines 265-280):

    ray.init(...)
    try:
        difficulty_2_task = {'medium': "GFP-TransformerMedium-v0",
                             "hard": "GFP-TransformerHard-v0",
                             "easy": "GFP-TransformerEasy-v0",
                             "none": "GFP-v0"}
        task_name = difficulty_2_task[difficulty]
    except KeyError:
        raise NotImplementedError(
            f'The currently supported difficulty levels are: '
            f'<join of difficulty_2_task.keys() with ",">')
    tune.run(coms_cleaned, config={..., "task": task_name, ...})

The command is embedded as the list of external actions it performs together
with the error it raises, if any: `ray.init` always runs first, and
`tune.run` (which launches the trial that trains) runs only when the
difficulty lookup succeeds. -/

/-- The externally visible actions of the `gfp` command. -/
inductive GfpAct where
  | rayStart : GfpAct
  | runTrial : String → GfpAct
  deriving DecidableEq

/-- The `difficulty_2_task` dictionary, in insertion order. -/
def difficulty2Task : List (String × String) :=
  [("medium", "GFP-TransformerMedium-v0"),
   ("hard", "GFP-TransformerHard-v0"),
   ("easy", "GFP-TransformerEasy-v0"),
   ("none", "GFP-v0")]

/-- The supported difficulty keys, `difficulty_2_task.keys()`. -/
def gfpValidKeys : List String := difficulty2Task.map Prod.fst

/-- The `NotImplementedError` message raised on an unknown key. -/
def gfpErrMsg : String :=
  "The currently supported difficulty levels are: " ++
    String.intercalate "," gfpValidKeys

/-- The `gfp` command: the actions performed, in order, and the error raised
(if any).  A raised error aborts the command before `tune.run`, so the trial
is launched only on a successful lookup. -/
def gfpCommand (difficulty : String) : List GfpAct × Option String :=
  match difficulty2Task.lookup difficulty with
  | some taskName => ([GfpAct.rayStart, GfpAct.runTrial taskName], none)
  | none => ([GfpAct.rayStart], some gfpErrMsg)

/-! ## Supporting lemmas -/

/-- The clamp never returns zero: either the branch substitutes `1`, or it
returns the unchanged nonzero value. -/
lemma clampStd_ne_zero (s : ℚ) : clampStd s ≠ 0 := by
  unfold clampStd
  split
  · exact one_ne_zero
  · assumption

lemma invertNorm_applyNorm (mu s x : ℚ) :
    invertNorm mu (clampStd s) (applyNorm mu (clampStd s) x) = x := by
  unfold invertNorm applyNorm
  rw [div_mul_cancel₀ _ (clampStd_ne_zero s)]
  ring

lemma laTrace_head (expF : ℚ → ℚ) (lr t la : ℚ) (stream : List (List ℚ)) :
    (laTrace expF lr t la stream).head? = some la := by
  cases stream <;> rfl

/-- A lower bound on every element of a nonempty list is a lower bound on its
mean. -/
lemma le_meanQ {t : ℚ} {l : List ℚ} (hne : l ≠ []) (h : ∀ x ∈ l, t ≤ x) :
    t ≤ meanQ l := by
  have hlen : (0 : ℚ) < (l.length : ℚ) := by
    have : 0 < l.length := List.length_pos.mpr hne
    exact_mod_cast this
  have hsum : t * (l.length : ℚ) ≤ sumQ l := by
    clear hne hlen
    induction l with
    | nil => simp [sumQ]
    | cons x xs ih =>
      have hx : t ≤ x := h x (List.mem_cons_self x xs)
      have hxs : t * (xs.length : ℚ) ≤ sumQ xs :=
        ih (fun y hy => h y (List.mem_cons_of_mem x hy))
      simp only [sumQ, List.length_cons]
      push_cast
      nlinarith
  unfold meanQ
  rw [le_div_iff₀ hlen]
  exact hsum

/-- An upper bound on every element of a nonempty list is an upper bound on
its mean. -/
lemma meanQ_le {t : ℚ} {l : List ℚ} (hne : l ≠ []) (h : ∀ x ∈ l, x ≤ t) :
    meanQ l ≤ t := by
  have := le_meanQ (t := -t) (l := l.map Neg.neg) (by simpa using hne)
    (by
      intro x hx
      rcases List.mem_map.mp hx with ⟨y, hy, rfl⟩
      exact neg_le_neg (h y hy))
  have hmean : meanQ (l.map Neg.neg) = - meanQ l := by
    unfold meanQ
    have hs : ∀ m : List ℚ, sumQ (m.map Neg.neg) = - sumQ m := by
      intro m
      induction m with
      | nil => simp [sumQ]
      | cons x xs ih => simp [sumQ, ih]; ring
    rw [hs l, List.length_map]
    ring
  rw [hmean] at this
  linarith

lemma laStep_ge (expF : ℚ → ℚ) (hpos : ∀ z, 0 < expF z) {lr t : ℚ}
    (hlr : 0 ≤ lr) {cs : List ℚ} (hne : cs ≠ []) (h : ∀ c ∈ cs, t ≤ c)
    (la : ℚ) : la ≤ laStep expF lr t cs la := by
  unfold laStep
  have hmean : t ≤ meanQ cs := le_meanQ hne h
  have hexp : 0 < expF la := hpos la
  nlinarith [mul_nonneg (mul_nonneg hlr hexp.le) (sub_nonneg.mpr hmean)]

lemma laStep_le (expF : ℚ → ℚ) (hpos : ∀ z, 0 < expF z) {lr t : ℚ}
    (hlr : 0 ≤ lr) {cs : List ℚ} (hne : cs ≠ []) (h : ∀ c ∈ cs, c ≤ t)
    (la : ℚ) : laStep expF lr t cs la ≤ la := by
  unfold laStep
  have hmean : meanQ cs ≤ t := meanQ_le hne h
  have hexp : 0 < expF la := hpos la
  nlinarith [mul_nonneg (mul_nonneg hlr hexp.le) (sub_nonneg.mpr hmean)]

lemma laTrace_chain_le (expF : ℚ → ℚ) (hpos : ∀ z, 0 < expF z) {lr t : ℚ}
    (hlr : 0 ≤ lr) (stream : List (List ℚ))
    (hne : ∀ cs ∈ stream, cs ≠ []) (h : ∀ cs ∈ stream, ∀ c ∈ cs, t ≤ c)
    (la : ℚ) : List.Chain' (· ≤ ·) (laTrace expF lr t la stream) := by
  induction stream generalizing la with
  | nil => simp [laTrace]
  | cons cs rest ih =>
    rw [laTrace, List.chain'_cons']
    constructor
    · intro b hb
      rw [laTrace_head] at hb
      cases hb
      exact laStep_ge expF hpos hlr (hne cs (List.mem_cons_self cs rest))
        (h cs (List.mem_cons_self cs rest)) la
    · exact ih (fun m hm => hne m (List.mem_cons_of_mem cs hm))
        (fun m hm => h m (List.mem_cons_of_mem cs hm)) _

lemma laTrace_chain_ge (expF : ℚ → ℚ) (hpos : ∀ z, 0 < expF z) {lr t : ℚ}
    (hlr : 0 ≤ lr) (stream : List (List ℚ))
    (hne : ∀ cs ∈ stream, cs ≠ []) (h : ∀ cs ∈ stream, ∀ c ∈ cs, c ≤ t)
    (la : ℚ) : List.Chain' (fun a b => b ≤ a) (laTrace expF lr t la stream) := by
  induction stream generalizing la with
  | nil => simp [laTrace]
  | cons cs rest ih =>
    rw [laTrace, List.chain'_cons']
    constructor
    · intro b hb
      rw [laTrace_head] at hb
      cases hb
      exact laStep_le expF hpos hlr (hne cs (List.mem_cons_self cs rest))
        (h cs (List.mem_cons_self cs rest)) la
    · exact ih (fun m hm => hne m (List.mem_cons_of_mem cs hm))
        (fun m hm => h m (List.mem_cons_of_mem cs hm)) _

lemma omax_none_right (o : Option ℚ) : omax o none = o := by
  cases o <;> rfl

lemma omax_assoc (a b c : Option ℚ) :
    omax (omax a b) c = omax a (omax b c) := by
  cases a <;> cases b <;> cases c <;> simp [omax, max_assoc]

lemma bestUpdate_eq_omax (b : Option ℚ) (s : List ℚ) :
    bestUpdate b s = omax b (listMax s) := by
  unfold bestUpdate
  cases hs : listMax s with
  | none => exact (omax_none_right b).symm
  | some m =>
    cases b with
    | none => rfl
    | some bb =>
      simp only [omax]
      rcases lt_or_ge bb m with hlt | hge
      · rw [if_pos hlt, max_eq_right hlt.le]
      · rw [if_neg (not_lt.mpr hge), max_eq_left hge]

lemma listMax_append (a b : List ℚ) :
    listMax (a ++ b) = omax (listMax a) (listMax b) := by
  induction a with
  | nil => simp [listMax, omax]
  | cons x xs ih => simp [listMax, ih, omax_assoc]

lemma bestTrack_eq_omax (b : Option ℚ) (l : List (List ℚ)) :
    bestTrack b l = omax b (listMax l.flatten) := by
  induction l generalizing b with
  | nil => simp [bestTrack, listMax, omax_none_right]
  | cons s rest ih =>
    rw [bestTrack, ih, bestUpdate_eq_omax, List.flatten_cons, listMax_append,
      omax_assoc]

lemma onlineInitLogArg_pos {clip : ℚ} (hc0 : 0 < clip) (hc1 : clip < 1)
    {numCat : ℕ} (hcat : 0 < numCat) {p : ℚ} (hp : 0 ≤ p) :
    0 < onlineInitLogArg clip numCat p := by
  unfold onlineInitLogArg
  have h1 : 0 ≤ clip * p := mul_nonneg hc0.le hp
  have h2 : (0 : ℚ) < (numCat : ℚ) := by exact_mod_cast hcat
  have h3 : (0 : ℚ) < 1 / (numCat : ℚ) := by positivity
  have h4 : (0 : ℚ) < (1 - clip) * (1 / (numCat : ℚ)) := by
    apply mul_pos _ h3
    linarith
  linarith

lemma onlineEpochCount_le {σ : Type}
    (epoch : OnlineLoopState σ → OnlineLoopState σ) :
    ∀ (n : ℕ) (s : OnlineLoopState σ), onlineEpochCount epoch n s ≤ n := by
  intro n
  induction n with
  | zero => intro s; simp [onlineEpochCount]
  | succ n ih =>
    intro s
    rw [onlineEpochCount]
    split
    · omega
    · have := ih (epoch s)
      omega

lemma onlineEpochCount_le_of_allDone {σ : Type}
    (epoch : OnlineLoopState σ → OnlineLoopState σ) :
    ∀ (n m : ℕ) (s : OnlineLoopState σ),
      allDoneMask (epoch^[m + 1] s).done = true →
      onlineEpochCount epoch n s ≤ m + 1 := by
  intro n
  induction n with
  | zero => intro m s _; simp [onlineEpochCount]
  | succ n ih =>
    intro m s hdone
    rw [onlineEpochCount]
    split
    · omega
    · rename_i hnot
      cases m with
      | zero =>
        rw [Function.iterate_one] at hdone
        exact absurd hdone (by simpa using hnot)
      | succ m =>
        have hd : allDoneMask (epoch^[m + 1] (epoch s)).done = true := by
          rwa [Function.iterate_succ_apply] at hdone
        have := ih m (epoch s) hd
        omega

lemma onlineEpochCount_eq_of_notDone {σ : Type}
    (epoch : OnlineLoopState σ → OnlineLoopState σ) :
    ∀ (n : ℕ) (s : OnlineLoopState σ),
      (∀ m, m < n → allDoneMask (epoch^[m + 1] s).done = false) →
      onlineEpochCount epoch n s = n := by
  intro n
  induction n with
  | zero => intro s _; rfl
  | succ n ih =>
    intro s h
    rw [onlineEpochCount]
    have h0 : allDoneMask (epoch s).done = false := by
      simpa [Function.iterate_one] using h 0 (Nat.succ_pos n)
    rw [if_neg (by simp [h0])]
    have := ih (epoch s) (by
      intro m hm
      have := h (m + 1) (by omega)
      rwa [Function.iterate_succ_apply] at this)
    omega

lemma sumQ_map_sub (l : List ℚ) (c : ℚ) :
    sumQ (l.map (fun x => x - c)) = sumQ l - (l.length : ℚ) * c := by
  induction l with
  | nil => simp [sumQ]
  | cons x xs ih =>
    simp only [List.map_cons, sumQ, ih, List.length_cons]
    push_cast
    ring

lemma meanQ_map_sub {l : List ℚ} (hne : l ≠ []) (c : ℚ) :
    meanQ (l.map (fun x => x - c)) = meanQ l - c := by
  have hlen : ((l.length : ℚ)) ≠ 0 := by
    have : 0 < l.length := List.length_pos.mpr hne
    exact_mod_cast this.ne'
  unfold meanQ
  rw [List.length_map, sumQ_map_sub]
  field_simp

/-- Shifting every score by the batch mean leaves the population variance
unchanged: `reduce_std(ty - mean_y)` equals the standard deviation of `ty`
itself. -/
lemma varQ_centered (ys : List ℚ) :
    varQ (ys.map (fun y => y - meanQ ys)) = varQ ys := by
  cases hys : ys with
  | nil => simp [varQ, meanQ, sumQ]
  | cons a l =>
    rw [← hys]
    have hne : ys ≠ [] := by simp [hys]
    have hc : meanQ (ys.map (fun y => y - meanQ ys)) = 0 := by
      rw [meanQ_map_sub hne]
      ring
    unfold varQ
    rw [hc, List.map_map]
    have hfun : ((fun x => (x - 0) ^ 2) ∘ fun y => y - meanQ ys) =
        (fun x => (x - meanQ ys) ^ 2) := by
      funext x
      simp
    rw [hfun]

lemma length_zip_mul (f : ℚ → ℚ) (a ys : List ℚ) :
    (List.zipWith (fun l y => l * f y) a ys).length = min a.length ys.length :=
  List.length_zipWith _ _ _

lemma sumQ_zipWith_add (f : ℚ → ℚ) :
    ∀ (a b ys : List ℚ), a.length = b.length →
      sumQ (List.zipWith (fun l y => l * f y) (List.zipWith (· + ·) a b) ys) =
        sumQ (List.zipWith (fun l y => l * f y) a ys) +
          sumQ (List.zipWith (fun l y => l * f y) b ys) := by
  intro a
  induction a with
  | nil =>
    intro b ys hb
    have : b = [] := List.eq_nil_of_length_eq_zero hb.symm
    simp [this, sumQ]
  | cons x xs ih =>
    intro b ys hb
    cases b with
    | nil => simp at hb
    | cons y bs =>
      cases ys with
      | nil => simp [sumQ]
      | cons w ws =>
        simp only [List.zipWith_cons_cons, sumQ]
        rw [ih bs ws (by simpa using hb)]
        ring

/-- Dividing the summed products by the (shared) batch length: the negative
mean is additive in the log-probability vector. -/
lemma meanQ_zipWith_add (f : ℚ → ℚ) (a b ys : List ℚ)
    (h : a.length = b.length) :
    -(meanQ (List.zipWith (fun l y => l * f y)
        (List.zipWith (· + ·) a b) ys)) =
      -(meanQ (List.zipWith (fun l y => l * f y) a ys)) +
        -(meanQ (List.zipWith (fun l y => l * f y) b ys)) := by
  unfold meanQ
  rw [sumQ_zipWith_add f a b ys h]
  simp only [List.length_zipWith, h, min_self]
  ring

lemma lookup_eq_none_of_not_mem_keys (l : List (String × String)) (a : String)
    (h : a ∉ l.map Prod.fst) : l.lookup a = none := by
  induction l with
  | nil => rfl
  | cons kv rest ih =>
    have hne : a ≠ kv.1 := by
      intro he
      exact h (by simp [he])
    have hbeq : (a == kv.1) = false := beq_eq_false_iff_ne.mpr hne
    calc List.lookup a (kv :: rest) = List.lookup a rest := by
          rcases kv with ⟨k, v⟩
          simp [List.lookup, hbeq]
    _ = none := ih (fun hm => h (List.mem_cons_of_mem _ hm))

/-! ## Claim theorems -/

/-- C1: over any stream of consecutive `Conservative.train_step` updates in
which every per-example conservative gap stays above the target gap, the
Lagrange multiplier `alpha = exp(log_alpha)` is non-decreasing, and over any
stream in which every gap stays below the target, `alpha` is non-increasing
(dual ascent moves `alpha` in the correct direction). -/
theorem c1_lagrange_dual_ascent_direction (expF : ℚ → ℚ) (lr t la : ℚ)
    (stream : List (List ℚ)) (hpos : ∀ z, 0 < expF z) (hmono : Monotone expF)
    (hlr : 0 ≤ lr) (hne : ∀ cs ∈ stream, cs ≠ []) :
    ((∀ cs ∈ stream, ∀ c ∈ cs, t < c) →
      List.Chain' (· ≤ ·) (alphaTrace expF lr t la stream)) ∧
    ((∀ cs ∈ stream, ∀ c ∈ cs, c < t) →
      List.Chain' (fun a b => b ≤ a) (alphaTrace expF lr t la stream)) := by
  constructor
  · intro h
    unfold alphaTrace
    rw [List.chain'_map]
    exact (laTrace_chain_le expF hpos hlr stream hne
      (fun cs hcs c hc => (h cs hcs c hc).le) la).imp
      (fun _ _ hab => hmono hab)
  · intro h
    unfold alphaTrace
    rw [List.chain'_map]
    exact (laTrace_chain_ge expF hpos hlr stream hne
      (fun cs hcs c hc => (h cs hcs c hc).le) la).imp
      (fun _ _ hab => hmono hab)

/-- Witness for C1 at a concrete fixed-gap stream: target `0`, gaps `1` and
`2`, learning rate `1`. -/
theorem c1_lagrange_dual_ascent_direction_witness :
    List.Chain' (· ≤ ·)
      (alphaTrace (fun _ => 1) 1 0 0 [[1], [2]]) :=
  (c1_lagrange_dual_ascent_direction (fun _ => 1) 1 0 0 [[1], [2]]
    (fun _ => one_pos) monotone_const (by norm_num) (by decide)).1
    (by decide)

/-- C2 counterexample: the tracked best score is *not* the running maximum
including the step-0 evaluation.  With an initial top-K batch scoring `10`
and a single solver step scoring `3`, the loop persists `3` while the claim
predicts `10`: the tracker is initialized to `None` only after the step-0
evaluation. -/
theorem c2_best_score_counterexample :
    searchBestScore [10] [[3]] ≠ specBestScore [10] [[3]] := by
  decide

/-- C2 amended: after every oracle evaluation of the solver loop, the tracked
best score equals the running maximum of the scores observed at solver steps
`1..k`; the step-0 evaluation of the initial top-K batch is logged but never
enters the tracker, so the persisted best is the maximum over the solver-step
evaluations only. -/
theorem c2_best_score_amended (scores0 : List ℚ)
    (stepScores : List (List ℚ)) :
    (∀ k, searchBestScore scores0 (stepScores.take k) =
      listMax (stepScores.take k).flatten) ∧
    searchBestScore scores0 stepScores = listMax stepScores.flatten := by
  constructor
  · intro k
    unfold searchBestScore
    rw [bestTrack_eq_omax]
    rfl
  · unfold searchBestScore
    rw [bestTrack_eq_omax]
    rfl

/-- C3 counterexample: in `online` on a discrete task of shape `[8, 4]` the
effective solver step size is `lr * sqrt(8 * 3)`, not the claimed
`lr * sqrt(8 * 4)`: the final category dimension is decremented before the
product.  Both step sizes are nonnegative multiples of the same `lr`, so they
differ exactly when their squares differ. -/
theorem c3_step_scale_counterexample :
    onlineSolverScaleSq 1 [8, 4] true ≠ specStepScaleSq 1 [8, 4] := by
  norm_num [onlineSolverScaleSq, specStepScaleSq, prodDims, decLastDim]

/-- C3 amended: the squared effective step size equals
`lr^2 * prod(dims)` for both `csm` learning rates (solver and perturbation,
discrete or continuous) and for `online` on continuous tasks; for `online` on
a discrete task of shape `[L, C]` the product instead uses `C - 1`
categories. -/
theorem c3_step_scale_amended (lr : ℚ) (dims : List ℕ) :
    csmSolverScaleSq lr dims = specStepScaleSq lr dims ∧
    csmPerturbScaleSq lr dims = specStepScaleSq lr dims ∧
    onlineSolverScaleSq lr dims false = specStepScaleSq lr dims ∧
    ∀ L C : ℕ, onlineSolverScaleSq lr [L, C] true =
      lr ^ 2 * ((L * (C - 1) : ℕ) : ℚ) := by
  refine ⟨rfl, rfl, rfl, ?_⟩
  intro L C
  simp [onlineSolverScaleSq, decLastDim, prodDims]

/-- C4 counterexample: in `conservative_ensemble` the INIT step applies
`tf.math.log` to the top-K one-hot rows with no smoothing constant, so the
one-hot row `[1, 0]` produces a `-inf` logit at the zero coordinate: an
infinite value enters the candidate batch at initialization. -/
theorem c4_init_logit_counterexample : ceInitFinite [1, 0] = false := by
  decide

/-- C4 amended: the `online` INIT step does smooth with the configurable
`discrete_clip` constant, and for any clip in `(0, 1)` every logit of every
simplex row (entries nonnegative, at least one category) is finite; the
`conservative_ensemble` INIT step applies `log` directly and produces an
infinite logit at any exactly-zero simplex coordinate. -/
theorem c4_init_logit_amended (clip : ℚ) (ps : List ℚ) (hc0 : 0 < clip)
    (hc1 : clip < 1) (hp : ∀ p ∈ ps, 0 ≤ p) (hne : ps ≠ []) :
    onlineInitFinite clip ps = true := by
  unfold onlineInitFinite
  rw [List.all_eq_true]
  intro p hpmem
  unfold logFinite
  simp only [decide_eq_true_eq]
  exact onlineInitLogArg_pos hc0 hc1 (List.length_pos.mpr hne) (hp p hpmem)

/-- Witness for C4 amended at the one-hot row `[1, 0]` with clip `1/2`. -/
theorem c4_init_logit_amended_witness :
    onlineInitFinite (1 / 2) [1, 0] = true :=
  c4_init_logit_amended (1 / 2) [1, 0] (by norm_num) (by norm_num)
    (by decide) (by decide)

/-- C5: with the clamped per-feature statistics, inverting the normalization
returns the original batch exactly (hence within any floating-point
tolerance): `invert(apply(X)) = X` where `apply x = (x - mean) / std` and
`invert x = x * std + mean`. -/
theorem c5_normalization_roundtrip (mu s : ℚ) (X : List ℚ) :
    invertNormBatch mu (clampStd s)
      (applyNormBatch mu (clampStd s) X) = X := by
  simp only [applyNormBatch, invertNormBatch, List.map_map]
  have hfun : (invertNorm mu (clampStd s) ∘ applyNorm mu (clampStd s)) = id :=
    funext (fun x => invertNorm_applyNorm mu s x)
  rw [hfun, List.map_id]

/-- C6: for every feature whose computed standard deviation is exactly `0`
the stored statistic is `1`, the stored statistic is never `0` (so the
normalization never divides by zero), and every feature with a nonzero
computed standard deviation keeps it unchanged; the clamp is a total
function, raising no error. -/
theorem c6_std_clamp (st : List ℚ) (i : ℕ) (s : ℚ)
    (h : st[i]? = some s) :
    (clampStdVec st)[i]? = some (clampStd s) ∧
    (s = 0 → clampStd s = 1) ∧ clampStd s ≠ 0 ∧
    (s ≠ 0 → clampStd s = s) := by
  refine ⟨?_, ?_, clampStd_ne_zero s, ?_⟩
  · unfold clampStdVec
    rw [List.getElem?_map, h]
    rfl
  · intro hs
    simp [clampStd, hs]
  · intro hs
    simp [clampStd, hs]

/-- Witness for C6 at the statistics vector `[0, 2]`, feature `0`. -/
theorem c6_std_clamp_witness :
    (clampStdVec [0, 2])[0]? = some (clampStd 0) ∧
    ((0 : ℚ) = 0 → clampStd 0 = 1) ∧ clampStd (0 : ℚ) ≠ 0 ∧
    ((0 : ℚ) ≠ 0 → clampStd 0 = 0) :=
  c6_std_clamp [0, 2] 0 0 rfl

/-- C7: the online epoch loop never exceeds the epoch budget; once the whole
done mask is set at an epoch boundary `m + 1`, no further epoch starts (at
most `m + 1` epochs run, early termination); and if at every boundary within
the budget some trajectory is not done, the loop runs the full budget. -/
theorem c7_epoch_loop_early_stop {σ : Type}
    (epoch : OnlineLoopState σ → OnlineLoopState σ) (n : ℕ)
    (s : OnlineLoopState σ) :
    onlineEpochCount epoch n s ≤ n ∧
    (∀ m, allDoneMask (epoch^[m + 1] s).done = true →
      onlineEpochCount epoch n s ≤ m + 1) ∧
    ((∀ m, m < n → allDoneMask (epoch^[m + 1] s).done = false) →
      onlineEpochCount epoch n s = n) :=
  ⟨onlineEpochCount_le epoch n s,
   fun m h => onlineEpochCount_le_of_allDone epoch n m s h,
   fun h => onlineEpochCount_eq_of_notDone epoch n s h⟩

/-- Witness for C7: with an epoch body that marks every trajectory done, a
budget of `5` epochs stops after the first. -/
theorem c7_epoch_loop_early_stop_witness :
    onlineEpochCount
      (fun st : OnlineLoopState Unit =>
        ⟨st.done.map (fun _ => true), st.rest⟩) 5 ⟨[false, false], ()⟩ ≤ 1 :=
  (c7_epoch_loop_early_stop
    (fun st : OnlineLoopState Unit =>
      ⟨st.done.map (fun _ => true), st.rest⟩) 5 ⟨[false, false], ()⟩).2.1 0
    (by decide)

/-- C8: the REINFORCE loss computed by the source (standard deviation taken
of the centered scores) equals the spec's
`-E[log_prob(x) * (score - mean) / std(score)]` for every square-root
function, and — because the standardized score is under `stop_gradient` —
the loss is additive in the log-probability vector, so its gradient treats
the standardized score as a constant. -/
theorem c8_reinforce_loss (sqrtF : ℚ → ℚ) (logp ys u : List ℚ)
    (hu : u.length = logp.length) :
    reinforceLossCode sqrtF logp ys = reinforceLossSpec sqrtF logp ys ∧
    reinforceLossCode sqrtF (List.zipWith (· + ·) logp u) ys =
      reinforceLossCode sqrtF logp ys + reinforceLossCode sqrtF u ys := by
  constructor
  · unfold reinforceLossCode reinforceLossSpec
    rw [varQ_centered]
  · unfold reinforceLossCode
    exact meanQ_zipWith_add
      (fun y => (y - meanQ ys) /
        sqrtF (varQ (List.map (fun z => z - meanQ ys) ys)))
      logp u ys hu.symm

/-- Witness for C8 at a concrete batch. -/
theorem c8_reinforce_loss_witness :
    reinforceLossCode id [1, 2] [3, 5] = reinforceLossSpec id [1, 2] [3, 5] ∧
    reinforceLossCode id (List.zipWith (· + ·) [1, 2] [4, 6]) [3, 5] =
      reinforceLossCode id [1, 2] [3, 5] + reinforceLossCode id [4, 6] [3, 5] :=
  c8_reinforce_loss id [1, 2] [3, 5] [4, 6] rfl

/-- C9: invoking the `gfp` command with a difficulty outside
`medium, hard, easy, none` raises the `NotImplementedError` whose message
lists the valid options, and the trial is never launched (the error occurs
before `tune.run`); for every valid difficulty no error is raised and the
trial for the mapped task is launched. -/
theorem c9_gfp_difficulty_check :
    (∀ d : String, d ∉ gfpValidKeys →
      (gfpCommand d).2 = some gfpErrMsg ∧
      gfpErrMsg =
        "The currently supported difficulty levels are: medium,hard,easy,none" ∧
      ∀ t, GfpAct.runTrial t ∉ (gfpCommand d).1) ∧
    (∀ d ∈ gfpValidKeys, (gfpCommand d).2 = none ∧
      ∃ t, (gfpCommand d).1 = [GfpAct.rayStart, GfpAct.runTrial t]) := by
  constructor
  · intro d hd
    have hnone : difficulty2Task.lookup d = none :=
      lookup_eq_none_of_not_mem_keys _ _ (by simpa [gfpValidKeys] using hd)
    unfold gfpCommand
    rw [hnone]
    refine ⟨rfl, by decide, ?_⟩
    intro t ht
    simp at ht
  · intro d hd
    have hd' : d = "medium" ∨ d = "hard" ∨ d = "easy" ∨ d = "none" := by
      simpa [gfpValidKeys, difficulty2Task] using hd
    rcases hd' with h | h | h | h <;> subst h
    · exact ⟨rfl, "GFP-TransformerMedium-v0", rfl⟩
    · exact ⟨rfl, "GFP-TransformerHard-v0", rfl⟩
    · exact ⟨rfl, "GFP-TransformerEasy-v0", rfl⟩
    · exact ⟨rfl, "GFP-v0", rfl⟩

/-- Witness for C9 at the unsupported key `"impossible"`. -/
theorem c9_gfp_difficulty_check_witness :
    (gfpCommand "impossible").2 = some gfpErrMsg ∧
    gfpErrMsg =
      "The currently supported difficulty levels are: medium,hard,easy,none" ∧
    ∀ t, GfpAct.runTrial t ∉ (gfpCommand "impossible").1 :=
  c9_gfp_difficulty_check.1 "impossible" (by decide)

/-- C10: every solver step of `conservative_ensemble_predictions` updates the
candidate batch using only the conservative ensemble's gradient, so the
sequence of candidate solutions is unchanged under any change to the vanilla
ensemble (whose gradient feeds only the `gradient_corr` log record). -/
theorem c10_vanilla_noninterference (lr : ℚ)
    (cGrad vGrad vGrad' : List ℚ → List ℚ) (x : List ℚ) (n : ℕ) :
    predictionsTrajectory lr cGrad vGrad x n =
      predictionsTrajectory lr cGrad vGrad' x n := by
  induction n with
  | zero => rfl
  | succ n ih => simp [predictionsTrajectory, predictionsSolverStep, ih]

end DesignBaselines
